import Mathlib

/-!
# simple-api-gateway: routing core

A shallow embedding of `main.go` (route handler, `loadConfig`, `chooseServer`,
`parseServers`, `clearCacheData`, the reload branch of `watchConfigChanges`)
and theorems about it.

Modelling conventions
* A Go `interface{}` holding a decoded TOML value is a `Value`.
* A Go `map[string]T` is an association list `List (String × T)`; reading a key
  is `List.lookup`.  Go maps have pairwise distinct keys, which theorems that
  iterate over a map (`range`) assume as `(m.map Prod.fst).Nodup`; the order of
  the list stands for the (unspecified) iteration order.
* A Go `[]string` is a `Slice`: `none` is the nil slice, `some l` a non-nil
  slice with elements `l`.
* A run-time panic (failed type assertion, index out of range, `rand.Intn`
  with a non-positive argument) is `Except.error`.
* The handler stores the strings returned by `c.Params` as keys of the cache map
  (main.go 69-71, 96-102).  The application is created without `Immutable`
  (main.go 52-56), so these strings point into a buffer that fiber reuses for later
  requests: what a stored key reads can change after the handler has returned.  A
  `KeyView` says what each stored key reads, and `rekey` is the step in which the
  stored keys come to read so; the stored values are not touched by it.  Within one
  request the keys of that request are stable.
-/

namespace Gateway

/-! ## Data model -/

/-- A value decoded from TOML into a Go `interface{}`. -/
inductive Value where
  | str (s : String)
  | int (i : Int)
  | float (bits : Nat)
  | bool (b : Bool)
  | datetime (s : String)
  | array (xs : List Value)
  | table (kvs : List (String × Value))

/-- Run-time panics the routing code can raise. -/
inductive Panic where
  | typeAssertion
  | indexOutOfRange
  | intnNonPositive
  deriving DecidableEq, Repr

deriving instance DecidableEq for Except

/-- A Go `[]string`: `none` is nil. -/
abbrev Slice := Option (List String)

/-- Go `len(s)`. -/
def Slice.len (s : Slice) : Nat := (s.getD []).length

/-- Go `append(s, x)`: the result is never nil. -/
def Slice.append (s : Slice) (x : String) : Slice := some (s.getD [] ++ [x])

/-- Go `s[i]`, panicking when `i` is out of range. -/
def Slice.index (s : Slice) (i : Nat) : Except Panic String :=
  match (s.getD [])[i]? with
  | some x => .ok x
  | none => .error .indexOutOfRange

/-- The three-level routing table `Config.Service`. -/
abbrev ServiceTable := List (String × List (String × List (String × Value)))

/-- Go `type Config struct`. -/
structure Config where
  Name : String
  Host : String
  Port : Int
  Cache : Bool
  Log : Bool
  Service : ServiceTable

/-- Go `type CacheData struct`. -/
structure CacheData where
  Servers : Slice
  Method : String
  deriving DecidableEq, Repr

/-- The map held in `cacheData.data`; `none` is the nil map. -/
abbrev CacheMap := Option (List (String × List (String × List (String × CacheData))))

/-! ## `chooseServer` -/

/-- Go `rand.Intn(n)`: panics when `n ≤ 0`, otherwise returns a value in `[0, n)`.
`draw` is the raw output of the pseudo-random source for this call. -/
def randIntn (draw : Nat) (n : Nat) : Except Panic Nat :=
  if n = 0 then .error .intnNonPositive else .ok (draw % n)

/-- Go `chooseServer(method, list)` (main.go 180-189). -/
def chooseServer (method : String) (list : Slice) (draw : Nat) : Except Panic String :=
  if method = "first" then
    list.index 0
  else if method = "random" then
    match randIntn draw list.len with
    | .ok i => list.index i
    | .error e => .error e
  else
    match randIntn draw list.len with
    | .ok i => list.index i
    | .error e => .error e

/-! ## `parseServers` -/

/-- The inner loop `for _, s := range v.([]interface{}) { servers = append(servers, s.(string)) }`
once the assertion on `v` has succeeded. -/
def appendServers (servers : Slice) : List Value → Except Panic Slice
  | [] => .ok servers
  | .str s :: rest => appendServers (servers.append s) rest
  | _ :: _ => .error .typeAssertion

/-- One iteration of the `range m` loop of `parseServers`, on the pair
`(method, servers)` of named results. -/
def parseEntry (acc : String × Slice) (k : String) (v : Value) : Except Panic (String × Slice) :=
  if k = "method" then
    match v with
    | .str s => .ok (s, acc.2)
    | _ => .error .typeAssertion
  else if k = "servers" then
    match v with
    | .array xs =>
      match appendServers acc.2 xs with
      | .ok sv => .ok (acc.1, sv)
      | .error e => .error e
    | _ => .error .typeAssertion
  else
    .ok acc

/-- The `range m` loop from a given pair of named results. -/
def parseLoop (acc : String × Slice) : List (String × Value) → Except Panic (String × Slice)
  | [] => .ok acc
  | (k, v) :: rest =>
    match parseEntry acc k v with
    | .ok acc1 => parseLoop acc1 rest
    | .error e => .error e

/-- Go `parseServers(m)` (main.go 191-203): the named results start as `""` and nil. -/
def parseServers (m : List (String × Value)) : Except Panic (String × Slice) :=
  parseLoop ("", none) m

/-- The Go type assertion `v.(string)` would succeed. -/
def Value.isStr : Value → Bool
  | .str _ => true
  | _ => false

/-- The value is a `[]interface{}` all of whose elements are strings. -/
def Value.isStrArray : Value → Bool
  | .array xs => xs.all Value.isStr
  | _ => false

/-- The string held by a value, if it holds one. -/
def Value.str? : Value → Option String
  | .str s => some s
  | _ => none

/-- A descriptor whose `method`, if present, is a string and whose `servers`, if present, is
a list of strings. -/
def descriptorWellTyped (m : List (String × Value)) : Bool :=
  (match m.lookup "method" with
    | some v => v.isStr
    | none => true) &&
  (match m.lookup "servers" with
    | some v => v.isStrArray
    | none => true)

/-- The descriptor parse in the words of the specification (4.2): `method` is the value of
`method` when that is a string and otherwise the default `""`, which selects Random; the
servers are the string elements of the `servers` list in order, non-strings skipped. -/
def parseDescriptorSpec (m : List (String × Value)) : String × List String :=
  (match m.lookup "method" with
    | some (.str s) => s
    | _ => "",
   match m.lookup "servers" with
    | some (.array xs) => xs.filterMap Value.str?
    | _ => [])

/-- The Go slice obtained by appending the elements of `l` to a nil slice. -/
def Slice.ofList (l : List String) : Slice := if l = [] then none else some l

/-! ## Map access -/

/-- Go `m[k] = v` on a map. -/
def mapSet {β : Type} (m : List (String × β)) (k : String) (v : β) : List (String × β) :=
  match m with
  | [] => [(k, v)]
  | (k1, v1) :: rest => if k1 = k then (k, v) :: rest else (k1, v1) :: mapSet rest k v

/-- Go `service, ok := cfg.Service[path][version][serviceName]` (main.go 74): reading a missing
key of an outer map gives a nil map, and reading a nil map gives `ok = false`. -/
def lookupService (t : ServiceTable) (path version serviceName : String) : Option Value :=
  match t.lookup path with
  | none => none
  | some versions =>
    match versions.lookup version with
    | none => none
    | some services => services.lookup serviceName

/-- Go `cache, ok := cacheData.data[path][version][serviceName]` (main.go 87). -/
def cacheGet (data : CacheMap) (path version serviceName : String) : Option CacheData :=
  match data with
  | none => none
  | some d =>
    match d.lookup path with
    | none => none
    | some versions =>
      match versions.lookup version with
      | none => none
      | some services => services.lookup serviceName

/-- The write section of the handler (main.go 93-105): the three `== nil` checks with `make`,
then the store of the new `CacheData`. -/
def cachePopulate (data : CacheMap) (path version serviceName : String) (cd : CacheData) :
    CacheMap :=
  let d0 := match data with
    | none => []
    | some d => d
  let d1 := match d0.lookup path with
    | none => []
    | some versions => versions
  let d2 := match d1.lookup version with
    | none => []
    | some services => services
  some (mapSet d0 path (mapSet d1 version (mapSet d2 serviceName cd)))

/-- Go `clearCacheData()` (main.go 205-209). -/
def clearCacheData (_data : CacheMap) : CacheMap := none

/-- What the stored key strings read at some moment: the key of entry `i` of the outer map,
of entry `j` of the map under it, and of entry `k` of the map under that. -/
structure KeyView where
  path : Nat → String
  version : Nat → Nat → String
  service : Nat → Nat → Nat → String

/-- The entries of one map with their keys read through `key`, from position `i` on. -/
def rekeyFrom {β γ : Type} (key : Nat → String) (val : Nat → β → γ) :
    Nat → List (String × β) → List (String × γ)
  | _, [] => []
  | i, (_, b) :: rest => (key i, val i b) :: rekeyFrom key val (i + 1) rest

/-- The cache map with every stored key read through `view`; the values stay. -/
def rekey (view : KeyView) (data : CacheMap) : CacheMap :=
  match data with
  | none => none
  | some d =>
    some (rekeyFrom view.path
      (fun i versions => rekeyFrom (view.version i)
        (fun j services => rekeyFrom (view.service i j) (fun _ cd => cd) 0 services)
        0 versions)
      0 d)

/-- All values stored in the cache map, whatever their keys. -/
def cacheValues (data : CacheMap) : List CacheData :=
  match data with
  | none => []
  | some d => d.flatMap fun pv => pv.2.flatMap fun vs => vs.2.map Prod.snd

/-! ## The route handler -/

/-- The parameters of a request matched by `/:path/:version/:service_name/*`. -/
structure Request where
  path : String
  version : String
  serviceName : String
  star : String

/-- What the handler did with a request. -/
inductive Response where
  /-- `c.Status(code).SendString(body)`, with no call of `proxy.Do`. -/
  | status (code : Nat) (body : String)
  /-- `proxy.Do(c, url)` was called; `err` is its error, on which the handler answers
  `c.Status(500).SendString(err)`. -/
  | proxied (url : String) (err : Option String)
  deriving DecidableEq, Repr

/-- The target handed to `proxy.Do`, if the request was forwarded. -/
def Response.forwardedTo : Response → Option String
  | .status _ _ => none
  | .proxied url _ => some url

/-- The status code the handler itself set, if any. -/
def Response.statusSet : Response → Option Nat
  | .status code _ => some code
  | .proxied _ none => none
  | .proxied _ (some _) => some 500

/-- Go `strings.Join(elems, sep)`. -/
def stringsJoin (elems : List String) (sep : String) : String := sep.intercalate elems

/-- Lines 110-125 of the handler: nil check, `chooseServer`, `proxy.Do`. -/
def respond (proxyDo : String → Option String) (cache : CacheData) (star : String) (draw : Nat) :
    Except Panic Response :=
  match cache.Servers with
  | none => .ok (.status 500 "Internal server error")
  | some _ =>
    match chooseServer cache.Method cache.Servers draw with
    | .error e => .error e
    | .ok server =>
      let url := stringsJoin [server, star] "/"
      .ok (.proxied url (proxyDo url))

/-- The route handler (main.go 68-126) run without interruption: its outcome and the
cache it leaves.  `proxyDo` is `proxy.Do`, `draw` the output of the random source. -/
def handler (proxyDo : String → Option String) (cfg : Config) (data : CacheMap)
    (req : Request) (draw : Nat) : Except Panic Response × CacheMap :=
  match lookupService cfg.Service req.path req.version req.serviceName with
  | none => (.ok (.status 404 "Not found"), data)
  | some (.table serviceMap) =>
    match cacheGet data req.path req.version req.serviceName with
    | some cache => (respond proxyDo cache req.star draw, data)
    | none =>
      match parseServers serviceMap with
      | .error e => (.error e, data)
      | .ok (method, servers) =>
        let data1 := cachePopulate data req.path req.version req.serviceName ⟨servers, method⟩
        let cache := (cacheGet data1 req.path req.version req.serviceName).getD ⟨none, ""⟩
        (respond proxyDo cache req.star draw, data1)
  | some _ => (.ok (.status 404 "Invalid service configuration"), data)

/-! ## `loadConfig` and the reload loop -/

/-- Go `loadConfig()` (main.go 131-148): the returned error and the value of `cfg` afterwards.
`readFile` is the result of `os.ReadFile("config.toml")`, `unmarshal` is `toml.Unmarshal`
into a fresh `Config`. -/
def loadConfig (readFile : Except String String) (unmarshal : String → Except String Config)
    (cfg : Config) : Option String × Config :=
  match readFile with
  | .error err => (some err, cfg)
  | .ok doc =>
    match unmarshal doc with
    | .error err => (some err, cfg)
    | .ok newConfig => (none, newConfig)

/-- The external collaborators. -/
structure Env where
  unmarshal : String → Except String Config
  proxyDo : String → Option String

/-- The two globals `cfg` and `cacheData.data`. -/
structure State where
  cfg : Config
  data : CacheMap

/-- One request, one write/create notification of the watcher, or fiber reusing the buffer
the stored keys point into. -/
inductive Event where
  | request (req : Request) (draw : Nat)
  | reload (readFile : Except String String)
  | rekey (view : KeyView)

/-- The reload branch of `watchConfigChanges` (main.go 169-172): `loadConfig`, then
`clearCacheData` whether or not loading failed. -/
def reload (env : Env) (readFile : Except String String) (st : State) : State :=
  ⟨(loadConfig readFile env.unmarshal st.cfg).2, clearCacheData st.data⟩

/-- One event handled without interruption. -/
def step (env : Env) (st : State) : Event → State
  | .request req draw => ⟨st.cfg, (handler env.proxyDo st.cfg st.data req draw).2⟩
  | .reload readFile => reload env readFile st
  | .rekey view => ⟨st.cfg, rekey view st.data⟩

/-- A sequence of events, each handled without interruption. -/
def run (env : Env) (st : State) (events : List Event) : State :=
  events.foldl (step env) st

/-! ## Auxiliary definitions for the statements -/

/-- Appending `l` to a slice, as repeated `append` does. -/
def Slice.appendAll (sv : Slice) (l : List String) : Slice :=
  if l = [] then sv else some (sv.getD [] ++ l)

/-- The named results of the loop, from the values they had before it. -/
def loopResult (acc : String × Slice) (m : List (String × Value)) : String × Slice :=
  (match m.lookup "method" with
    | some (.str s) => s
    | _ => acc.1,
   match m.lookup "servers" with
    | some (.array xs) => acc.2.appendAll (xs.filterMap Value.str?)
    | _ => acc.2)

/-- Every cache entry is the parse of the current table entry of its key. -/
def Coherent (st : State) : Prop :=
  ∀ p v n cd, cacheGet st.data p v n = some cd →
    ∃ m, lookupService st.cfg.Service p v n = some (.table m) ∧
      parseServers m = .ok (cd.Method, cd.Servers)

/-! ## Requests interleaved with a reload

Each section of the handler that runs under one lock (table read 73-75, cache read 86-88,
cache populate 92-107) and each of the two sections of a reload (table swap 143-145, cache
clear 206-208) is one step; the code between two sections only touches locals and is run
together with the section before it.  A change of what the stored keys read is a step of
its own, which may happen between any two sections. -/

/-- Where a request stands between two lock-guarded sections of the handler. -/
inductive Pc where
  /-- Before the table read. -/
  | start
  /-- After the table read found a mapping, before the cache read. -/
  | haveService (serviceMap : List (String × Value))
  /-- After the cache read missed, before the populate section. -/
  | missed (serviceMap : List (String × Value))
  /-- The handler has returned. -/
  | done (result : Except Panic Response)

/-- A request being handled. -/
structure Thread where
  req : Request
  draw : Nat
  pc : Pc

/-- The outcome of a request that has returned. -/
def Thread.result (t : Thread) : Option (Except Panic Response) :=
  match t.pc with
  | .done r => some r
  | _ => none

/-- The next lock-guarded section of a request, with the local code that follows it. -/
def threadStep (proxyDo : String → Option String) (cfg : Config) (data : CacheMap)
    (t : Thread) : Thread × CacheMap :=
  match t.pc with
  | .start =>
    match lookupService cfg.Service t.req.path t.req.version t.req.serviceName with
    | none => (⟨t.req, t.draw, .done (.ok (.status 404 "Not found"))⟩, data)
    | some (.table serviceMap) => (⟨t.req, t.draw, .haveService serviceMap⟩, data)
    | some _ => (⟨t.req, t.draw, .done (.ok (.status 404 "Invalid service configuration"))⟩, data)
  | .haveService serviceMap =>
    match cacheGet data t.req.path t.req.version t.req.serviceName with
    | some cache => (⟨t.req, t.draw, .done (respond proxyDo cache t.req.star t.draw)⟩, data)
    | none => (⟨t.req, t.draw, .missed serviceMap⟩, data)
  | .missed serviceMap =>
    match parseServers serviceMap with
    | .error e => (⟨t.req, t.draw, .done (.error e)⟩, data)
    | .ok (method, servers) =>
      let data1 := cachePopulate data t.req.path t.req.version t.req.serviceName ⟨servers, method⟩
      let cache := (cacheGet data1 t.req.path t.req.version t.req.serviceName).getD ⟨none, ""⟩
      (⟨t.req, t.draw, .done (respond proxyDo cache t.req.star t.draw)⟩, data1)
  | .done r => (⟨t.req, t.draw, .done r⟩, data)

/-- The globals, the requests in flight or finished, and whether the watcher is between
`loadConfig` and `clearCacheData`. -/
structure Sys where
  cfg : Config
  data : CacheMap
  threads : List Thread
  reloading : Bool

/-- One scheduling decision. -/
inductive Action where
  /-- A new request enters the handler. -/
  | arrive (req : Request) (draw : Nat)
  /-- Request number `i` runs its next section. -/
  | advance (i : Nat)
  /-- The watcher runs `loadConfig`. -/
  | swap (readFile : Except String String)
  /-- The watcher runs `clearCacheData`. -/
  | clear
  /-- Fiber reuses the buffer the stored keys point into. -/
  | rekey (view : KeyView)

/-- The effect of one scheduling decision. -/
def sysStep (env : Env) (s : Sys) : Action → Sys
  | .arrive req draw => ⟨s.cfg, s.data, s.threads ++ [⟨req, draw, .start⟩], s.reloading⟩
  | .advance i =>
    match s.threads[i]? with
    | none => s
    | some t =>
      ⟨s.cfg, (threadStep env.proxyDo s.cfg s.data t).2,
        s.threads.set i (threadStep env.proxyDo s.cfg s.data t).1, s.reloading⟩
  | .swap readFile =>
    if s.reloading then s
    else ⟨(loadConfig readFile env.unmarshal s.cfg).2, s.data, s.threads, true⟩
  | .clear =>
    if s.reloading then ⟨s.cfg, clearCacheData s.data, s.threads, false⟩ else s
  | .rekey view => ⟨s.cfg, rekey view s.data, s.threads, s.reloading⟩

/-- A schedule run from a state. -/
def runSchedule (env : Env) (s : Sys) (schedule : List Action) : Sys :=
  schedule.foldl (sysStep env) s

/-- A table with the one route `tenantA/v1/svc`, method "first", and the given servers. -/
def tableWith (servers : List String) : Config :=
  ⟨"gateway", "127.0.0.1", 8080, false, false,
    [("tenantA", [("v1", [("svc", .table [("method", .str "first"),
      ("servers", .array (servers.map Value.str))])])])]⟩

/-- A decoder that turns the document "new" into the table with server `http://h2`. -/
def staleEnv : Env :=
  ⟨fun doc => if doc = "new" then .ok (tableWith ["http://h2"]) else .error "toml: bad document",
    fun _ => none⟩

/-- The request `/tenantA/v1/svc/items/5`. -/
def reqA : Request := ⟨"tenantA", "v1", "svc", "items/5"⟩

/-- A first request reads the old table; the reload swaps the table and clears the cache;
the first request then misses the cache and populates it from the old entry; a second
request arrives after all that and runs to its end. -/
def staleSchedule : List Action :=
  [.arrive reqA 0, .advance 0, .swap (.ok "new"), .clear, .advance 0, .advance 0,
    .arrive reqA 0, .advance 1, .advance 1]

/-- The state reached by `staleSchedule` from the `http://h1` table and an empty cache. -/
def staleFinal : Sys :=
  runSchedule staleEnv ⟨tableWith ["http://h1"], none, [], false⟩ staleSchedule

/-- A table with the routes `tenantA/v1/svc` to `http://h1` and `tenantB/v1/svc` to
`http://h2`, both with method "first". -/
def twoTenants : Config :=
  ⟨"gateway", "127.0.0.1", 8080, false, false,
    [("tenantA", [("v1", [("svc", .table [("method", .str "first"),
        ("servers", .array [.str "http://h1"])])])]),
     ("tenantB", [("v1", [("svc", .table [("method", .str "first"),
        ("servers", .array [.str "http://h2"])])])])]⟩

/-- The request `/tenantB/v1/svc/items/5`. -/
def reqB : Request := ⟨"tenantB", "v1", "svc", "items/5"⟩

/-- What the stored keys read once fiber has written the path of `req` over the path of an
earlier request with segments of the same lengths: the segments of `req`. -/
def aliasTo (req : Request) : KeyView :=
  ⟨fun _ => req.path, fun _ _ => req.version, fun _ _ _ => req.serviceName⟩

/-- The state in which the request `/tenantB/v1/svc/items/5` is handled after the request
`/tenantA/v1/svc/items/5`, with no reload: the keys stored by the first request read
`tenantB`, `v1`, `svc`. -/
def aliasedState : State :=
  run staleEnv ⟨twoTenants, none⟩ [.request reqA 0, .rekey (aliasTo reqB)]

/-- A table whose route `tenantA/v1/svc` has the `servers` list `["http://h1", 1]`. -/
def mixedServers : Config :=
  ⟨"gateway", "127.0.0.1", 8080, false, false,
    [("tenantA", [("v1", [("svc", .table [("method", .str "first"),
        ("servers", .array [.str "http://h1", .int 1])])])])]⟩

/-- A table whose route `tenantA/v1/svc` is the string "http://h1" and not a mapping. -/
def stringEntry : Config :=
  ⟨"gateway", "127.0.0.1", 8080, false, false,
    [("tenantA", [("v1", [("svc", .str "http://h1")])])]⟩

/-- The `Servers` of a cache value is nil or has at least one element. -/
def PoolOk (cd : CacheData) : Prop := cd.Servers ≠ some []

/-- Every stored value is `PoolOk`, and no request has ended in a panic other than a failed
type assertion. -/
def SysOk (s : Sys) : Prop :=
  (∀ cd ∈ cacheValues s.data, PoolOk cd) ∧
  ∀ t ∈ s.threads, ∀ e, t.result = some (.error e) → e = .typeAssertion

/-! ## Facts about `chooseServer` -/

theorem stringsJoin_pair (a b : String) : stringsJoin [a, b] "/" = a ++ "/" ++ b := by
  simp [stringsJoin, String.intercalate, String.intercalate.go]

theorem index_some_of_lt (l : List String) (i : Nat) (h : i < l.length) :
    Slice.index (some l) i = .ok (l.get ⟨i, h⟩) := by
  simp [Slice.index, List.getElem?_eq_getElem h]

theorem first_branch_eq (l : List String) (draw : Nat) :
    chooseServer "first" (some l) draw = Slice.index (some l) 0 := by
  simp [chooseServer]

theorem chooseServer_other_eq (method : String) (l : List String) (draw : Nat)
    (hm : method ≠ "first") (hl : l ≠ []) :
    chooseServer method (some l) draw = Slice.index (some l) (draw % l.length) := by
  have hlen : l.length ≠ 0 := by simpa using hl
  unfold chooseServer
  rw [if_neg hm]
  simp [randIntn, Slice.len, hlen]

theorem chooseServer_mem (method : String) (l : List String) (draw : Nat) (hl : l ≠ []) :
    ∃ s, chooseServer method (some l) draw = .ok s ∧ s ∈ l := by
  have hpos : 0 < l.length := List.length_pos.mpr hl
  by_cases hm : method = "first"
  · subst hm
    refine ⟨l.get ⟨0, hpos⟩, ?_, List.get_mem _ _ _⟩
    rw [first_branch_eq, index_some_of_lt l 0 hpos]
  · have hlt : draw % l.length < l.length := Nat.mod_lt _ hpos
    refine ⟨l.get ⟨draw % l.length, hlt⟩, ?_, List.get_mem _ _ _⟩
    rw [chooseServer_other_eq method l draw hm hl, index_some_of_lt l _ hlt]

/-- C8: for a non-empty list, `chooseServer("first", list)` is `list[0]`, whatever the random
source yields. -/
theorem chooseServer_first (l : List String) (draw : Nat) (hl : l ≠ []) :
    chooseServer "first" (some l) draw = .ok (l.get ⟨0, List.length_pos.mpr hl⟩) := by
  rw [first_branch_eq, index_some_of_lt l 0 (List.length_pos.mpr hl)]

theorem chooseServer_first_witness :
    (["http://h1", "http://h2"] : List String) ≠ [] ∧
      chooseServer "first" (some ["http://h1", "http://h2"]) 1 = .ok "http://h1" :=
  ⟨by decide, chooseServer_first ["http://h1", "http://h2"] 1 (by decide)⟩

/-- C7: for a non-empty list, any method and any `r < len(list)` returned by `rand.Intn`,
`chooseServer` returns an element of the list and does not panic; for a method other than
"first" the result is `list[r]`, the same as for "random"; and every element is returned
for some `r`. -/
theorem chooseServer_safe (method : String) (l : List String) (r : Nat) (hl : l ≠ [])
    (hr : r < l.length) :
    (∃ s, chooseServer method (some l) r = .ok s ∧ s ∈ l) ∧
    (method ≠ "first" →
      chooseServer method (some l) r = .ok (l.get ⟨r, hr⟩) ∧
      chooseServer method (some l) r = chooseServer "random" (some l) r ∧
      ∀ x ∈ l, ∃ r1, r1 < l.length ∧ chooseServer method (some l) r1 = .ok x) := by
  refine ⟨chooseServer_mem method l r hl, fun hm => ⟨?_, ?_, ?_⟩⟩
  · rw [chooseServer_other_eq method l r hm hl]
    simp [Nat.mod_eq_of_lt hr, index_some_of_lt l r hr]
  · rw [chooseServer_other_eq method l r hm hl,
      chooseServer_other_eq "random" l r (by decide) hl]
  · intro x hx
    obtain ⟨i, hi, hget⟩ := List.getElem_of_mem hx
    refine ⟨i, hi, ?_⟩
    rw [chooseServer_other_eq method l i hm hl]
    simp [Nat.mod_eq_of_lt hi, index_some_of_lt l i hi, hget]

theorem chooseServer_safe_witness :
    (∃ s, chooseServer "round" (some ["http://h1"]) 0 = .ok s ∧ s ∈ ["http://h1"]) ∧
    ("round" ≠ "first" →
      chooseServer "round" (some ["http://h1"]) 0 = .ok "http://h1" ∧
      chooseServer "round" (some ["http://h1"]) 0 = chooseServer "random" (some ["http://h1"]) 0 ∧
      ∀ x ∈ ["http://h1"], ∃ r1, r1 < 1 ∧ chooseServer "round" (some ["http://h1"]) r1 = .ok x) :=
  chooseServer_safe "round" ["http://h1"] 0 (by decide) (by decide)

/-! ## Facts about `parseServers` -/

theorem lookup_cons_ite {β : Type} (k k1 : String) (v : β) (rest : List (String × β)) :
    List.lookup k ((k1, v) :: rest) = if k = k1 then some v else List.lookup k rest := by
  rw [List.lookup_cons]
  by_cases h : k = k1
  · subst h; simp
  · have hb : (k == k1) = false := by simpa using h
    simp [hb, h]

theorem lookup_none_of_not_mem {β : Type} (k : String) (l : List (String × β))
    (h : k ∉ l.map Prod.fst) : List.lookup k l = none := by
  induction l with
  | nil => rfl
  | cons kv rest ih =>
    obtain ⟨k1, v⟩ := kv
    simp only [List.map_cons, List.mem_cons, not_or] at h
    rw [lookup_cons_ite, if_neg h.1]
    exact ih h.2

theorem appendServers_strings (xs : List Value) (sv : Slice) (h : xs.all Value.isStr = true) :
    appendServers sv xs = .ok (sv.appendAll (xs.filterMap Value.str?)) := by
  induction xs generalizing sv with
  | nil => simp [appendServers, Slice.appendAll]
  | cons x rest ih =>
    cases x with
    | str s =>
      have hrest : rest.all Value.isStr = true := by
        simp only [List.all_cons, Bool.and_eq_true] at h
        exact h.2
      rw [appendServers, ih _ hrest]
      by_cases hr : rest.filterMap Value.str? = []
      · simp [Slice.appendAll, Slice.append, Value.str?, hr]
      · simp [Slice.appendAll, Slice.append, Value.str?, hr]
    | int i => simp [Value.isStr] at h
    | float b => simp [Value.isStr] at h
    | bool b => simp [Value.isStr] at h
    | datetime d => simp [Value.isStr] at h
    | array ys => simp [Value.isStr] at h
    | table kvs => simp [Value.isStr] at h

theorem parseLoop_wellTyped (m : List (String × Value)) (acc : String × Slice)
    (hk : (m.map Prod.fst).Nodup) (hw : descriptorWellTyped m = true) :
    parseLoop acc m = .ok (loopResult acc m) := by
  induction m generalizing acc with
  | nil => simp [parseLoop, loopResult]
  | cons kv rest ih =>
    obtain ⟨k, v⟩ := kv
    simp only [List.map_cons, List.nodup_cons] at hk
    obtain ⟨hnot, hnd⟩ := hk
    by_cases h1 : k = "method"
    · subst h1
      have hno : List.lookup "method" rest = none := lookup_none_of_not_mem _ _ hnot
      have hw1 : descriptorWellTyped rest = true := by
        have hw2 := hw
        simp [descriptorWellTyped, lookup_cons_ite] at hw2
        simp only [descriptorWellTyped, hno, Bool.true_and]
        exact hw2.2
      cases v with
      | str s =>
        simp only [parseLoop, parseEntry, if_true]
        rw [ih _ hnd hw1]
        simp [loopResult, lookup_cons_ite, hno]
      | int i => simp [descriptorWellTyped, lookup_cons_ite, Value.isStr] at hw
      | float b => simp [descriptorWellTyped, lookup_cons_ite, Value.isStr] at hw
      | bool b => simp [descriptorWellTyped, lookup_cons_ite, Value.isStr] at hw
      | datetime d => simp [descriptorWellTyped, lookup_cons_ite, Value.isStr] at hw
      | array ys => simp [descriptorWellTyped, lookup_cons_ite, Value.isStr] at hw
      | table kvs => simp [descriptorWellTyped, lookup_cons_ite, Value.isStr] at hw
    · by_cases h2 : k = "servers"
      · subst h2
        have hno : List.lookup "servers" rest = none := lookup_none_of_not_mem _ _ hnot
        have hw1 : descriptorWellTyped rest = true := by
          have hw2 := hw
          simp [descriptorWellTyped, lookup_cons_ite] at hw2
          simp only [descriptorWellTyped, hno, Bool.and_true]
          exact hw2.1
        cases v with
        | array ys =>
          have hys : ys.all Value.isStr = true := by
            have hw2 := hw
            simp only [descriptorWellTyped, lookup_cons_ite, Value.isStrArray, if_true,
              Bool.and_eq_true] at hw2
            exact hw2.2
          simp only [parseLoop, parseEntry, if_neg h1, if_true, appendServers_strings ys _ hys]
          rw [ih _ hnd hw1]
          simp [loopResult, lookup_cons_ite, hno]
        | str s => simp [descriptorWellTyped, lookup_cons_ite, Value.isStrArray] at hw
        | int i => simp [descriptorWellTyped, lookup_cons_ite, Value.isStrArray] at hw
        | float b => simp [descriptorWellTyped, lookup_cons_ite, Value.isStrArray] at hw
        | bool b => simp [descriptorWellTyped, lookup_cons_ite, Value.isStrArray] at hw
        | datetime d => simp [descriptorWellTyped, lookup_cons_ite, Value.isStrArray] at hw
        | table kvs => simp [descriptorWellTyped, lookup_cons_ite, Value.isStrArray] at hw
      · have hm : ¬ ("method" = k) := fun h => h1 h.symm
        have hs : ¬ ("servers" = k) := fun h => h2 h.symm
        have hw1 : descriptorWellTyped rest = true := by
          simpa [descriptorWellTyped, lookup_cons_ite, hm, hs] using hw
        simp only [parseLoop, parseEntry, if_neg h1, if_neg h2]
        rw [ih _ hnd hw1]
        simp [loopResult, lookup_cons_ite, hm, hs]

theorem parseServers_eq_spec (m : List (String × Value))
    (hk : (m.map Prod.fst).Nodup) (hw : descriptorWellTyped m = true) :
    parseServers m = .ok ((parseDescriptorSpec m).1, Slice.ofList (parseDescriptorSpec m).2) := by
  rw [parseServers, parseLoop_wellTyped m _ hk hw]
  simp only [loopResult, parseDescriptorSpec, Slice.ofList, Slice.appendAll]
  congr 2
  split <;> simp

/-! ## Facts about the cache map -/

theorem lookup_mapSet {β : Type} (m : List (String × β)) (k k1 : String) (v : β) :
    List.lookup k1 (mapSet m k v) = if k1 = k then some v else List.lookup k1 m := by
  induction m with
  | nil => simp [mapSet, lookup_cons_ite]
  | cons kv rest ih =>
    obtain ⟨k2, v2⟩ := kv
    by_cases h : k2 = k
    · subst h
      simp only [mapSet, if_true, lookup_cons_ite]
      split <;> rfl
    · simp only [mapSet, if_neg h, lookup_cons_ite, ih]
      by_cases h1 : k1 = k2
      · subst h1; simp [h]
      · simp [h1]

theorem cacheGet_cachePopulate (data : CacheMap) (p v n p1 v1 n1 : String) (cd : CacheData) :
    cacheGet (cachePopulate data p v n cd) p1 v1 n1 =
      if p1 = p ∧ v1 = v ∧ n1 = n then some cd else cacheGet data p1 v1 n1 := by
  by_cases hp : p1 = p
  · subst hp
    by_cases hv : v1 = v
    · subst hv
      by_cases hn : n1 = n
      · subst hn
        simp [cacheGet, cachePopulate, lookup_mapSet]
      · cases data with
        | none => simp [cacheGet, cachePopulate, lookup_mapSet, hn]
        | some d =>
          simp only [cacheGet, cachePopulate, lookup_mapSet, if_true, hn, and_false, if_false]
          cases h1 : List.lookup p1 d with
          | none => simp
          | some vs => cases h2 : List.lookup v1 vs <;> simp [h2]
    · cases data with
      | none => simp [cacheGet, cachePopulate, lookup_mapSet, hv]
      | some d =>
        simp only [cacheGet, cachePopulate, lookup_mapSet, if_true, hv, false_and, and_false,
          if_false]
        cases h1 : List.lookup p1 d <;> simp
  · cases data with
    | none => simp [cacheGet, cachePopulate, lookup_mapSet, hp]
    | some d => simp [cacheGet, cachePopulate, lookup_mapSet, hp]

theorem cacheGet_cachePopulate_self (data : CacheMap) (p v n : String) (cd : CacheData) :
    cacheGet (cachePopulate data p v n cd) p v n = some cd := by
  simp [cacheGet_cachePopulate]

/-! ## Facts about the handler -/

theorem handler_absent (proxyDo : String → Option String) (cfg : Config) (data : CacheMap)
    (req : Request) (draw : Nat)
    (h : lookupService cfg.Service req.path req.version req.serviceName = none) :
    handler proxyDo cfg data req draw = (.ok (.status 404 "Not found"), data) := by
  simp [handler, h]

theorem handler_hit (proxyDo : String → Option String) (cfg : Config) (data : CacheMap)
    (req : Request) (draw : Nat) (m : List (String × Value)) (cache : CacheData)
    (h : lookupService cfg.Service req.path req.version req.serviceName = some (.table m))
    (hc : cacheGet data req.path req.version req.serviceName = some cache) :
    handler proxyDo cfg data req draw = (respond proxyDo cache req.star draw, data) := by
  simp [handler, h, hc]

theorem handler_miss (proxyDo : String → Option String) (cfg : Config) (data : CacheMap)
    (req : Request) (draw : Nat) (m : List (String × Value)) (method : String) (servers : Slice)
    (h : lookupService cfg.Service req.path req.version req.serviceName = some (.table m))
    (hc : cacheGet data req.path req.version req.serviceName = none)
    (hp : parseServers m = .ok (method, servers)) :
    handler proxyDo cfg data req draw =
      (respond proxyDo ⟨servers, method⟩ req.star draw,
        cachePopulate data req.path req.version req.serviceName ⟨servers, method⟩) := by
  simp [handler, h, hc, hp, cacheGet_cachePopulate_self]

theorem handler_miss_panic (proxyDo : String → Option String) (cfg : Config) (data : CacheMap)
    (req : Request) (draw : Nat) (m : List (String × Value)) (e : Panic)
    (h : lookupService cfg.Service req.path req.version req.serviceName = some (.table m))
    (hc : cacheGet data req.path req.version req.serviceName = none)
    (hp : parseServers m = .error e) :
    handler proxyDo cfg data req draw = (.error e, data) := by
  simp [handler, h, hc, hp]

theorem respond_nil (proxyDo : String → Option String) (method star : String) (draw : Nat) :
    respond proxyDo ⟨none, method⟩ star draw = .ok (.status 500 "Internal server error") := by
  simp [respond]

theorem respond_some (proxyDo : String → Option String) (method star server : String)
    (l : List String) (draw : Nat) (h : chooseServer method (some l) draw = .ok server) :
    respond proxyDo ⟨some l, method⟩ star draw =
      .ok (.proxied (server ++ "/" ++ star) (proxyDo (server ++ "/" ++ star))) := by
  simp [respond, h, stringsJoin_pair]

theorem parseServers_typed (m : List (String × Value)) (method : String) (l : List String)
    (hk : (m.map Prod.fst).Nodup)
    (hm : m.lookup "method" = some (.str method))
    (hs : m.lookup "servers" = some (.array (l.map Value.str))) :
    parseServers m = .ok (method, Slice.ofList l) := by
  have hfm : ∀ l1 : List String, (l1.map Value.str).filterMap Value.str? = l1 := by
    intro l1
    induction l1 with
    | nil => rfl
    | cons x rest ih => simp only [List.map_cons, List.filterMap_cons, Value.str?, ih]
  have hfm := hfm l
  have hw : descriptorWellTyped m = true := by
    simp [descriptorWellTyped, hm, hs, Value.isStr, Value.isStrArray]
  rw [parseServers_eq_spec m hk hw]
  simp [parseDescriptorSpec, hm, hs, hfm]

theorem parseServers_no_servers (m : List (String × Value))
    (hk : (m.map Prod.fst).Nodup)
    (hm : ∀ v, m.lookup "method" = some v → v.isStr = true)
    (hs : m.lookup "servers" = none ∨ m.lookup "servers" = some (.array [])) :
    ∃ method, parseServers m = .ok (method, none) := by
  have hw : descriptorWellTyped m = true := by
    have h1 : (match m.lookup "method" with
        | some v => v.isStr
        | none => true) = true := by
      cases hl : m.lookup "method" with
      | none => rfl
      | some v => exact hm v hl
    rcases hs with hs | hs
    · simp only [descriptorWellTyped, h1, hs, Bool.and_self]
    · simp [descriptorWellTyped, h1, hs, Value.isStrArray]
  refine ⟨(parseDescriptorSpec m).1, ?_⟩
  rw [parseServers_eq_spec m hk hw]
  rcases hs with hs | hs <;> simp [parseDescriptorSpec, hs, Slice.ofList]

/-! ## The claims on a single request -/

/-- C1: when the table entry of the request key is a mapping with string `method` and a
non-empty list `l` of strings as `servers`, and the cache has no entry for the key or the
entry parsed from this table, the handler forwards to exactly
`chooseServer(method, l) + "/" + suffix`, the chosen server being an element of `l`; with
method "first", servers `["http://h1","http://h2"]` and suffix "items/5" the target is
"http://h1/items/5". -/
theorem handler_forwards (proxyDo : String → Option String) (cfg : Config) (data : CacheMap)
    (req : Request) (draw : Nat) (m : List (String × Value)) (method : String)
    (l : List String)
    (ht : lookupService cfg.Service req.path req.version req.serviceName = some (.table m))
    (hk : (m.map Prod.fst).Nodup)
    (hm : m.lookup "method" = some (.str method))
    (hs : m.lookup "servers" = some (.array (l.map Value.str)))
    (hl : l ≠ [])
    (hc : cacheGet data req.path req.version req.serviceName = none ∨
      cacheGet data req.path req.version req.serviceName = some ⟨some l, method⟩) :
    (∃ server, chooseServer method (some l) draw = .ok server ∧ server ∈ l ∧
      (handler proxyDo cfg data req draw).1 =
        .ok (.proxied (server ++ "/" ++ req.star) (proxyDo (server ++ "/" ++ req.star)))) ∧
    (method = "first" → l = ["http://h1", "http://h2"] → req.star = "items/5" →
      (handler proxyDo cfg data req draw).1 =
        .ok (.proxied "http://h1/items/5" (proxyDo "http://h1/items/5"))) := by
  have hparse : parseServers m = .ok (method, some l) := by
    rw [parseServers_typed m method l hk hm hs]
    simp [Slice.ofList, hl]
  have hresp : (handler proxyDo cfg data req draw).1 =
      respond proxyDo ⟨some l, method⟩ req.star draw := by
    rcases hc with hc | hc
    · rw [handler_miss proxyDo cfg data req draw m method (some l) ht hc hparse]
    · rw [handler_hit proxyDo cfg data req draw m _ ht hc]
  obtain ⟨server, hch, hmem⟩ := chooseServer_mem method l draw hl
  refine ⟨⟨server, hch, hmem, ?_⟩, ?_⟩
  · rw [hresp, respond_some proxyDo method req.star server l draw hch]
  · intro h1 h2 h3
    subst h1 h2
    have hch1 : chooseServer "first" (some ["http://h1", "http://h2"]) draw = .ok "http://h1" := by
      rw [first_branch_eq]
      rfl
    have hurl : ("http://h1" ++ "/" ++ "items/5" : String) = "http://h1/items/5" := by decide
    rw [hresp, h3, respond_some proxyDo "first" "items/5" "http://h1" _ draw hch1, hurl]

/-- C4: when the table has no entry for the request key, or the entry is not a key/value
mapping, the handler answers 404 without forwarding, whatever the cache holds, and leaves
the cache as it was. -/
theorem handler_not_found (proxyDo : String → Option String) (cfg : Config) (data : CacheMap)
    (req : Request) (draw : Nat)
    (h : lookupService cfg.Service req.path req.version req.serviceName = none ∨
      ∃ v, lookupService cfg.Service req.path req.version req.serviceName = some v ∧
        ∀ kvs, v ≠ .table kvs) :
    ∃ body, handler proxyDo cfg data req draw = (.ok (.status 404 body), data) ∧
      (Response.status 404 body).forwardedTo = none ∧
      (Response.status 404 body).statusSet = some 404 := by
  rcases h with h | ⟨v, hv, hnt⟩
  · exact ⟨"Not found", handler_absent proxyDo cfg data req draw h, rfl, rfl⟩
  · refine ⟨"Invalid service configuration", ?_, rfl, rfl⟩
    cases v with
    | table kvs => exact absurd rfl (hnt kvs)
    | str s => simp [handler, hv]
    | int i => simp [handler, hv]
    | float b => simp [handler, hv]
    | bool b => simp [handler, hv]
    | datetime d => simp [handler, hv]
    | array ys => simp [handler, hv]

/-- C5: when the table entry of the request key is a mapping whose `servers` is absent or
the empty list and whose `method`, if present, is a string, and the cache has no entry for
the key or the entry parsed from this mapping, the handler answers 500 without forwarding. -/
theorem handler_empty_pool (proxyDo : String → Option String) (cfg : Config) (data : CacheMap)
    (req : Request) (draw : Nat) (m : List (String × Value))
    (ht : lookupService cfg.Service req.path req.version req.serviceName = some (.table m))
    (hk : (m.map Prod.fst).Nodup)
    (hm : ∀ v, m.lookup "method" = some v → v.isStr = true)
    (hs : m.lookup "servers" = none ∨ m.lookup "servers" = some (.array []))
    (hc : cacheGet data req.path req.version req.serviceName = none ∨
      ∃ method servers, parseServers m = .ok (method, servers) ∧
        cacheGet data req.path req.version req.serviceName = some ⟨servers, method⟩) :
    (handler proxyDo cfg data req draw).1 = .ok (.status 500 "Internal server error") ∧
    (Response.status 500 "Internal server error").forwardedTo = none := by
  obtain ⟨method, hparse⟩ := parseServers_no_servers m hk hm hs
  refine ⟨?_, rfl⟩
  rcases hc with hc | ⟨method1, servers1, hp1, hc⟩
  · rw [handler_miss proxyDo cfg data req draw m method none ht hc hparse]
    exact respond_nil proxyDo method req.star draw
  · rw [hparse] at hp1
    injection hp1 with hp1
    injection hp1 with h1 h2
    subst h1 h2
    rw [handler_hit proxyDo cfg data req draw m _ ht hc]
    exact respond_nil proxyDo method req.star draw

/-- C6: when reading `config.toml` fails or its content cannot be decoded, `loadConfig`
returns an error and `cfg` is what it was before the call. -/
theorem loadConfig_failure (readFile : Except String String)
    (unmarshal : String → Except String Config) (cfg : Config)
    (h : (∃ err, readFile = .error err) ∨
      ∃ doc err, readFile = .ok doc ∧ unmarshal doc = .error err) :
    ∃ err, loadConfig readFile unmarshal cfg = (some err, cfg) := by
  rcases h with ⟨err, h⟩ | ⟨doc, err, h, hu⟩
  · exact ⟨err, by simp [loadConfig, h]⟩
  · exact ⟨err, by simp [loadConfig, h, hu]⟩

/-! ## What `parseServers` returns and what the handler writes -/

theorem appendServers_nonempty (xs : List Value) (sv r : Slice)
    (h : appendServers sv xs = .ok r) (hsv : sv ≠ some []) : r ≠ some [] := by
  induction xs generalizing sv with
  | nil =>
    simp only [appendServers] at h
    injection h with h
    exact h ▸ hsv
  | cons x rest ih =>
    cases x with
    | str s =>
      rw [appendServers] at h
      exact ih _ h (by simp [Slice.append])
    | int i => simp [appendServers] at h
    | float b => simp [appendServers] at h
    | bool b => simp [appendServers] at h
    | datetime d => simp [appendServers] at h
    | array ys => simp [appendServers] at h
    | table kvs => simp [appendServers] at h

theorem parseEntry_nonempty (acc r : String × Slice) (k : String) (v : Value)
    (h : parseEntry acc k v = .ok r) (hacc : acc.2 ≠ some []) : r.2 ≠ some [] := by
  unfold parseEntry at h
  split at h
  · split at h
    · injection h with h
      rw [← h]
      exact hacc
    · cases h
  · split at h
    · split at h
      · rename_i xs
        cases hx : appendServers acc.2 xs with
        | error e => simp [hx] at h
        | ok sv =>
          simp only [hx] at h
          injection h with h
          rw [← h]
          exact appendServers_nonempty xs _ _ hx hacc
      · cases h
    · injection h with h
      rw [← h]
      exact hacc

theorem parseLoop_nonempty (m : List (String × Value)) (acc r : String × Slice)
    (h : parseLoop acc m = .ok r) (hacc : acc.2 ≠ some []) : r.2 ≠ some [] := by
  induction m generalizing acc with
  | nil =>
    simp only [parseLoop] at h
    injection h with h
    exact h ▸ hacc
  | cons kv rest ih =>
    obtain ⟨k, v⟩ := kv
    simp only [parseLoop] at h
    cases he : parseEntry acc k v with
    | error e => simp [he] at h
    | ok acc1 =>
      simp only [he] at h
      exact ih _ h (parseEntry_nonempty acc acc1 k v he hacc)

theorem parseServers_nonempty (m : List (String × Value)) (method : String) (servers : Slice)
    (h : parseServers m = .ok (method, servers)) : servers ≠ some [] :=
  parseLoop_nonempty m ("", none) (method, servers) h (by simp)

theorem appendServers_error (xs : List Value) (sv : Slice) (e : Panic)
    (h : appendServers sv xs = .error e) : e = .typeAssertion := by
  induction xs generalizing sv with
  | nil => simp [appendServers] at h
  | cons x rest ih =>
    cases x with
    | str s => rw [appendServers] at h; exact ih _ h
    | int i => simp [appendServers] at h; exact h.symm
    | float b => simp [appendServers] at h; exact h.symm
    | bool b => simp [appendServers] at h; exact h.symm
    | datetime d => simp [appendServers] at h; exact h.symm
    | array ys => simp [appendServers] at h; exact h.symm
    | table kvs => simp [appendServers] at h; exact h.symm

theorem parseEntry_error (acc : String × Slice) (k : String) (v : Value) (e : Panic)
    (h : parseEntry acc k v = .error e) : e = .typeAssertion := by
  unfold parseEntry at h
  split at h
  · split at h
    · cases h
    · injection h with h; exact h.symm
  · split at h
    · split at h
      · rename_i xs
        cases hx : appendServers acc.2 xs with
        | ok sv => simp [hx] at h
        | error e1 =>
          simp only [hx] at h
          injection h with h
          subst h
          exact appendServers_error xs _ _ hx
      · injection h with h; exact h.symm
    · cases h

theorem parseLoop_error (m : List (String × Value)) (acc : String × Slice) (e : Panic)
    (h : parseLoop acc m = .error e) : e = .typeAssertion := by
  induction m generalizing acc with
  | nil => simp [parseLoop] at h
  | cons kv rest ih =>
    obtain ⟨k, v⟩ := kv
    simp only [parseLoop] at h
    cases hpe : parseEntry acc k v with
    | ok acc1 =>
      simp only [hpe] at h
      exact ih acc1 h
    | error e1 =>
      simp only [hpe] at h
      injection h with h
      subst h
      exact parseEntry_error acc k v _ hpe

/-- The only panic of `parseServers` is a failed type assertion. -/
theorem parseServers_error (m : List (String × Value)) (e : Panic)
    (h : parseServers m = .error e) : e = .typeAssertion :=
  parseLoop_error m _ e h

theorem handler_data (proxyDo : String → Option String) (cfg : Config) (data : CacheMap)
    (req : Request) (draw : Nat) :
    (handler proxyDo cfg data req draw).2 = data ∨
    ∃ m method servers,
      lookupService cfg.Service req.path req.version req.serviceName = some (.table m) ∧
      cacheGet data req.path req.version req.serviceName = none ∧
      parseServers m = .ok (method, servers) ∧
      (handler proxyDo cfg data req draw).2 =
        cachePopulate data req.path req.version req.serviceName ⟨servers, method⟩ := by
  cases ht : lookupService cfg.Service req.path req.version req.serviceName with
  | none => left; rw [handler_absent proxyDo cfg data req draw ht]
  | some v =>
    cases v with
    | table m =>
      cases hc : cacheGet data req.path req.version req.serviceName with
      | some cache => left; rw [handler_hit proxyDo cfg data req draw m cache ht hc]
      | none =>
        cases hp : parseServers m with
        | error e => left; rw [handler_miss_panic proxyDo cfg data req draw m e ht hc hp]
        | ok r =>
          obtain ⟨method, servers⟩ := r
          right
          exact ⟨m, method, servers, rfl, rfl, hp,
            by rw [handler_miss proxyDo cfg data req draw m method servers ht hc hp]⟩
    | str s => left; simp [handler, ht]
    | int i => left; simp [handler, ht]
    | float b => left; simp [handler, ht]
    | bool b => left; simp [handler, ht]
    | datetime d => left; simp [handler, ht]
    | array ys => left; simp [handler, ht]

/-! ## Stored values under interleaving and key changes -/

theorem lookup_mem {β : Type} (k : String) (l : List (String × β)) (b : β)
    (h : List.lookup k l = some b) : ∃ k1, (k1, b) ∈ l := by
  induction l with
  | nil => simp at h
  | cons kv rest ih =>
    obtain ⟨k2, v2⟩ := kv
    rw [lookup_cons_ite] at h
    by_cases hk : k = k2
    · rw [if_pos hk] at h
      injection h with h
      exact ⟨k2, by rw [h]; exact List.mem_cons_self _ _⟩
    · rw [if_neg hk] at h
      obtain ⟨k1, hk1⟩ := ih h
      exact ⟨k1, List.mem_cons_of_mem _ hk1⟩

theorem mem_mapSet {β : Type} (m : List (String × β)) (k k1 : String) (v b : β)
    (h : (k1, b) ∈ mapSet m k v) : b = v ∨ (k1, b) ∈ m := by
  induction m with
  | nil =>
    simp only [mapSet, List.mem_singleton, Prod.mk.injEq] at h
    exact Or.inl h.2
  | cons kv rest ih =>
    obtain ⟨k2, v2⟩ := kv
    by_cases hk : k2 = k
    · simp only [mapSet, if_pos hk, List.mem_cons, Prod.mk.injEq] at h
      rcases h with h | h
      · exact Or.inl h.2
      · exact Or.inr (List.mem_cons_of_mem _ h)
    · simp only [mapSet, if_neg hk, List.mem_cons] at h
      rcases h with h | h
      · exact Or.inr (by rw [h]; exact List.mem_cons_self _ _)
      · rcases ih h with h1 | h1
        · exact Or.inl h1
        · exact Or.inr (List.mem_cons_of_mem _ h1)

theorem mem_cacheValues (data : CacheMap) (cd : CacheData) :
    cd ∈ cacheValues data ↔
      ∃ d, data = some d ∧ ∃ p vs, (p, vs) ∈ d ∧ ∃ v ss, (v, ss) ∈ vs ∧ ∃ n, (n, cd) ∈ ss := by
  cases data with
  | none => simp [cacheValues]
  | some d =>
    simp only [cacheValues, List.mem_flatMap, List.mem_map, Option.some.injEq, Prod.exists,
      exists_eq_left']
    constructor
    · rintro ⟨p, vs, hp, v, ss, hv, n, c, hn, rfl⟩
      exact ⟨p, vs, hp, v, ss, hv, n, hn⟩
    · rintro ⟨p, vs, hp, v, ss, hv, n, hn⟩
      exact ⟨p, vs, hp, v, ss, hv, n, cd, hn, rfl⟩

theorem cacheGet_mem_values (data : CacheMap) (p v n : String) (cd : CacheData)
    (h : cacheGet data p v n = some cd) : cd ∈ cacheValues data := by
  rw [mem_cacheValues]
  cases data with
  | none => simp [cacheGet] at h
  | some d =>
    simp only [cacheGet] at h
    cases h1 : List.lookup p d with
    | none => simp [h1] at h
    | some vs =>
      simp only [h1] at h
      cases h2 : List.lookup v vs with
      | none => simp [h2] at h
      | some ss =>
        simp only [h2] at h
        obtain ⟨p1, hp1⟩ := lookup_mem p d vs h1
        obtain ⟨v1, hv1⟩ := lookup_mem v vs ss h2
        obtain ⟨n1, hn1⟩ := lookup_mem n ss cd h
        exact ⟨d, rfl, p1, vs, hp1, v1, ss, hv1, n1, hn1⟩

theorem cachePopulate_values (data : CacheMap) (p v n : String) (cd x : CacheData)
    (h : x ∈ cacheValues (cachePopulate data p v n cd)) : x = cd ∨ x ∈ cacheValues data := by
  rw [mem_cacheValues] at h
  obtain ⟨d, hd, p1, vs, hp1, v1, ss, hv1, n1, hn1⟩ := h
  simp only [cachePopulate, Option.some.injEq] at hd
  subst hd
  -- the maps the populate section found, or made
  have hd0 : ∀ p2 vs2, (p2, vs2) ∈ (match data with
      | none => []
      | some d => d) → ∀ v2 ss2, (v2, ss2) ∈ vs2 → ∀ n2, (n2, x) ∈ ss2 →
      x ∈ cacheValues data := by
    intro p2 vs2 hp2 v2 ss2 hv2 n2 hn2
    rw [mem_cacheValues]
    cases data with
    | none => simp at hp2
    | some d => exact ⟨d, rfl, p2, vs2, hp2, v2, ss2, hv2, n2, hn2⟩
  have hd1 : ∀ v2 ss2, (v2, ss2) ∈ (match List.lookup p (match data with
      | none => []
      | some d => d) with
      | none => []
      | some versions => versions) → ∀ n2, (n2, x) ∈ ss2 → x ∈ cacheValues data := by
    intro v2 ss2 hv2 n2 hn2
    cases hl : List.lookup p (match data with
      | none => []
      | some d => d) with
    | none => simp [hl] at hv2
    | some versions =>
      simp only [hl] at hv2
      obtain ⟨p2, hp2⟩ := lookup_mem _ _ _ hl
      exact hd0 p2 versions hp2 v2 ss2 hv2 n2 hn2
  have hd2 : ∀ n2, (n2, x) ∈ (match List.lookup v (match List.lookup p (match data with
      | none => []
      | some d => d) with
      | none => []
      | some versions => versions) with
      | none => []
      | some services => services) → x ∈ cacheValues data := by
    intro n2 hn2
    cases hl : List.lookup v (match List.lookup p (match data with
      | none => []
      | some d => d) with
      | none => []
      | some versions => versions) with
    | none => simp [hl] at hn2
    | some services =>
      simp only [hl] at hn2
      obtain ⟨v2, hv2⟩ := lookup_mem _ _ _ hl
      exact hd1 v2 services hv2 n2 hn2
  rcases mem_mapSet _ _ _ _ _ hp1 with h1 | h1
  · subst h1
    rcases mem_mapSet _ _ _ _ _ hv1 with h2 | h2
    · subst h2
      rcases mem_mapSet _ _ _ _ _ hn1 with h3 | h3
      · exact Or.inl h3
      · exact Or.inr (hd2 n1 h3)
    · exact Or.inr (hd1 v1 ss h2 n1 hn1)
  · exact Or.inr (hd0 p1 vs h1 v1 ss hv1 n1 hn1)

theorem mem_rekeyFrom {β γ : Type} (key : Nat → String) (val : Nat → β → γ)
    (l : List (String × β)) (i : Nat) (k : String) (c : γ)
    (h : (k, c) ∈ rekeyFrom key val i l) : ∃ k0 b j, (k0, b) ∈ l ∧ c = val j b := by
  induction l generalizing i with
  | nil => simp [rekeyFrom] at h
  | cons kv rest ih =>
    obtain ⟨k2, b2⟩ := kv
    simp only [rekeyFrom, List.mem_cons, Prod.mk.injEq] at h
    rcases h with h | h
    · exact ⟨k2, b2, i, List.mem_cons_self _ _, h.2⟩
    · obtain ⟨k0, b, j, hb, hc⟩ := ih (i + 1) h
      exact ⟨k0, b, j, List.mem_cons_of_mem _ hb, hc⟩

theorem rekey_values (view : KeyView) (data : CacheMap) (x : CacheData)
    (h : x ∈ cacheValues (rekey view data)) : x ∈ cacheValues data := by
  rw [mem_cacheValues] at h ⊢
  obtain ⟨d1, hd1, p1, vs1, hp1, v1, ss1, hv1, n1, hn1⟩ := h
  cases data with
  | none => simp [rekey] at hd1
  | some d =>
    simp only [rekey, Option.some.injEq] at hd1
    subst hd1
    obtain ⟨p0, vs0, i, hp0, hvs⟩ := mem_rekeyFrom _ _ _ _ _ _ hp1
    subst hvs
    obtain ⟨v0, ss0, j, hv0, hss⟩ := mem_rekeyFrom _ _ _ _ _ _ hv1
    subst hss
    obtain ⟨n0, c0, k, hn0, hc⟩ := mem_rekeyFrom _ _ _ _ _ _ hn1
    subst hc
    exact ⟨d, rfl, p0, vs0, hp0, v0, ss0, hv0, n0, hn0⟩

theorem poolOk_cases (cd : CacheData) (h : PoolOk cd) :
    cd.Servers = none ∨ ∃ l, cd.Servers = some l ∧ l ≠ [] := by
  cases hs : cd.Servers with
  | none => exact Or.inl rfl
  | some l => exact Or.inr ⟨l, rfl, fun hl => h (by rw [hs, hl])⟩

theorem respond_no_panic (proxyDo : String → Option String) (cd : CacheData) (star : String)
    (draw : Nat) (e : Panic) (h : PoolOk cd) : respond proxyDo cd star draw ≠ .error e := by
  obtain ⟨sv, me⟩ := cd
  rcases poolOk_cases _ h with h1 | ⟨l, h1, hl⟩
  · simp only at h1
    subst h1
    simp [respond]
  · simp only at h1
    subst h1
    obtain ⟨server, hch, _⟩ := chooseServer_mem me l draw hl
    rw [respond_some proxyDo me star server l draw hch]
    simp

theorem threadStep_ok (proxyDo : String → Option String) (cfg : Config) (data : CacheMap)
    (t : Thread) (hd : ∀ cd ∈ cacheValues data, PoolOk cd)
    (ht : ∀ e, t.result = some (.error e) → e = .typeAssertion) :
    (∀ cd ∈ cacheValues (threadStep proxyDo cfg data t).2, PoolOk cd) ∧
    ∀ e, (threadStep proxyDo cfg data t).1.result = some (.error e) → e = .typeAssertion := by
  obtain ⟨req, draw, pc⟩ := t
  cases pc with
  | start =>
    cases hl : lookupService cfg.Service req.path req.version req.serviceName with
    | none => simp [threadStep, hl, Thread.result]; exact hd
    | some v => cases v <;> simp [threadStep, hl, Thread.result] <;> exact hd
  | haveService m =>
    cases hc : cacheGet data req.path req.version req.serviceName with
    | none => simp [threadStep, hc, Thread.result]; exact hd
    | some cache =>
      simp only [threadStep, hc, Thread.result]
      refine ⟨hd, fun e he => ?_⟩
      injection he with he
      exact absurd he (respond_no_panic proxyDo cache req.star draw e
        (hd cache (cacheGet_mem_values data _ _ _ cache hc)))
  | missed m =>
    cases hp : parseServers m with
    | error e1 =>
      simp only [threadStep, hp, Thread.result]
      refine ⟨hd, fun e he => ?_⟩
      injection he with he
      injection he with he
      subst he
      exact parseServers_error m e1 hp
    | ok r =>
      obtain ⟨method, servers⟩ := r
      have hok : PoolOk ⟨servers, method⟩ := parseServers_nonempty m method servers hp
      simp only [threadStep, hp, Thread.result, cacheGet_cachePopulate_self, Option.getD_some]
      refine ⟨fun cd hcd => ?_, fun e he => ?_⟩
      · rcases cachePopulate_values data _ _ _ _ cd hcd with h1 | h1
        · rw [h1]; exact hok
        · exact hd cd h1
      · injection he with he
        exact absurd he (respond_no_panic proxyDo _ req.star draw e hok)
  | done r =>
    simp only [threadStep, Thread.result]
    exact ⟨hd, fun e he => ht e (by simpa [Thread.result] using he)⟩

theorem sysStep_ok (env : Env) (s : Sys) (a : Action) (h : SysOk s) : SysOk (sysStep env s a) := by
  obtain ⟨hd, ht⟩ := h
  cases a with
  | arrive req draw =>
    refine ⟨hd, fun t htm e he => ?_⟩
    simp only [sysStep, List.mem_append, List.mem_singleton] at htm
    rcases htm with htm | htm
    · exact ht t htm e he
    · subst htm
      simp [Thread.result] at he
  | advance i =>
    simp only [sysStep]
    cases hi : s.threads[i]? with
    | none => exact ⟨hd, ht⟩
    | some t =>
      have htm : t ∈ s.threads := List.getElem?_mem hi
      obtain ⟨h1, h2⟩ := threadStep_ok env.proxyDo s.cfg s.data t hd (ht t htm)
      refine ⟨h1, fun t1 ht1 e he => ?_⟩
      rcases List.mem_or_eq_of_mem_set ht1 with h3 | h3
      · exact ht t1 h3 e he
      · subst h3
        exact h2 e he
  | swap readFile =>
    simp only [sysStep]
    split
    · exact ⟨hd, ht⟩
    · exact ⟨hd, ht⟩
  | clear =>
    simp only [sysStep]
    split
    · exact ⟨fun cd hcd => by simp [clearCacheData, cacheValues] at hcd, ht⟩
    · exact ⟨hd, ht⟩
  | rekey view =>
    exact ⟨fun cd hcd => hd cd (rekey_values view s.data cd hcd), ht⟩

theorem runSchedule_ok (env : Env) (schedule : List Action) (s : Sys) (h : SysOk s) :
    SysOk (runSchedule env s schedule) := by
  induction schedule generalizing s with
  | nil => exact h
  | cons a rest ih => exact ih _ (sysStep_ok env s a h)

/-- C9: in every state reached from an empty cache by requests and reloads interleaved in
any way, and whatever the stored keys come to read, every `Servers` stored in the cache
(so every value a cache read can return) is nil or has at least one element; on every
stored non-nil list `chooseServer` returns an element of it; and no request has ended in an
index-out-of-range or `rand.Intn` panic. -/
theorem chooseServer_never_fails (env : Env) (cfg0 : Config) (schedule : List Action) :
    (∀ cd ∈ cacheValues (runSchedule env ⟨cfg0, none, [], false⟩ schedule).data,
      (cd.Servers = none ∨ 1 ≤ cd.Servers.len) ∧
      ∀ l, cd.Servers = some l →
        ∀ draw, ∃ server, chooseServer cd.Method cd.Servers draw = .ok server ∧ server ∈ l) ∧
    (∀ p v n cd,
      cacheGet (runSchedule env ⟨cfg0, none, [], false⟩ schedule).data p v n = some cd →
        cd ∈ cacheValues (runSchedule env ⟨cfg0, none, [], false⟩ schedule).data) ∧
    (∀ t ∈ (runSchedule env ⟨cfg0, none, [], false⟩ schedule).threads,
      ∀ e, t.result = some (.error e) → e = .typeAssertion) := by
  have hinit : SysOk ⟨cfg0, none, [], false⟩ :=
    ⟨fun cd hcd => by simp [cacheValues] at hcd, fun t ht => by simp at ht⟩
  obtain ⟨hd, ht⟩ := runSchedule_ok env schedule _ hinit
  refine ⟨fun cd hcd => ?_, fun p v n cd h => cacheGet_mem_values _ p v n cd h, ht⟩
  rcases poolOk_cases cd (hd cd hcd) with h1 | ⟨l, h1, hl⟩
  · exact ⟨Or.inl h1, fun l hl => by rw [h1] at hl; cases hl⟩
  · refine ⟨Or.inr ?_, fun l1 hl1 draw => ?_⟩
    · rw [h1]
      exact List.length_pos.mpr hl
    · rw [h1] at hl1
      injection hl1 with hl1
      subst hl1
      obtain ⟨server, hch, hmem⟩ := chooseServer_mem cd.Method l draw hl
      exact ⟨server, by rw [h1]; exact hch, hmem⟩

/-- C3 fails on the code: with the two-tenant table and no reload, after the request
`/tenantA/v1/svc/items/5` the keys it stored read `tenantB`, `v1`, `svc` once the request
`/tenantB/v1/svc/items/5` is being handled; the cache entry at that key holds the pool of
`tenantA`, not the parse of the table entry of `tenantB`, and the request is forwarded to
`http://h1` where the table says `http://h2`. -/
theorem aliased_entry_serves_other_tenant :
    cacheGet aliasedState.data "tenantB" "v1" "svc" = some ⟨some ["http://h1"], "first"⟩ ∧
    (∃ m, lookupService aliasedState.cfg.Service "tenantB" "v1" "svc" = some (.table m) ∧
      parseServers m = .ok ("first", some ["http://h2"])) ∧
    (handler staleEnv.proxyDo aliasedState.cfg aliasedState.data reqB 0).1 =
      .ok (.proxied "http://h1/items/5" none) ∧
    (handler staleEnv.proxyDo aliasedState.cfg none reqB 0).1 =
      .ok (.proxied "http://h2/items/5" none) ∧
    ¬ Coherent aliasedState := by
  have hentry : cacheGet aliasedState.data "tenantB" "v1" "svc" =
      some ⟨some ["http://h1"], "first"⟩ := by decide
  have htable : lookupService aliasedState.cfg.Service "tenantB" "v1" "svc" =
      some (.table [("method", .str "first"), ("servers", .array [.str "http://h2"])]) := rfl
  refine ⟨hentry, ⟨_, htable, by decide⟩, by decide, by decide, fun hco => ?_⟩
  obtain ⟨m, hm, hp⟩ := hco "tenantB" "v1" "svc" _ hentry
  rw [htable] at hm
  injection hm with hm
  injection hm with hm
  subst hm
  revert hp
  decide

/-- Three uninterrupted sections of a request are the handler. -/
theorem threadStep_thrice (proxyDo : String → Option String) (cfg : Config) (data : CacheMap)
    (req : Request) (draw : Nat) :
    (threadStep proxyDo cfg
        (threadStep proxyDo cfg (threadStep proxyDo cfg data ⟨req, draw, .start⟩).2
          (threadStep proxyDo cfg data ⟨req, draw, .start⟩).1).2
        (threadStep proxyDo cfg (threadStep proxyDo cfg data ⟨req, draw, .start⟩).2
          (threadStep proxyDo cfg data ⟨req, draw, .start⟩).1).1)
      = (⟨req, draw, .done (handler proxyDo cfg data req draw).1⟩,
          (handler proxyDo cfg data req draw).2) := by
  cases ht : lookupService cfg.Service req.path req.version req.serviceName with
  | none => simp [threadStep, handler, ht]
  | some v =>
    cases v with
    | table m =>
      cases hc : cacheGet data req.path req.version req.serviceName with
      | some cache => simp [threadStep, handler, ht, hc]
      | none =>
        cases hp : parseServers m with
        | error e => simp [threadStep, handler, ht, hc, hp]
        | ok r => simp [threadStep, handler, ht, hc, hp]
    | str s => simp [threadStep, handler, ht]
    | int i => simp [threadStep, handler, ht]
    | float b => simp [threadStep, handler, ht]
    | bool b => simp [threadStep, handler, ht]
    | datetime d => simp [threadStep, handler, ht]
    | array ys => simp [threadStep, handler, ht]

theorem handler_keeps_entry (proxyDo : String → Option String) (cfg : Config) (data : CacheMap)
    (req : Request) (draw : Nat) (p v n : String) (cd : CacheData)
    (h : cacheGet data p v n = some cd) :
    cacheGet (handler proxyDo cfg data req draw).2 p v n = some cd := by
  rcases handler_data proxyDo cfg data req draw with hd | ⟨m, method, servers, _, hc, _, hd⟩
  · rw [hd]; exact h
  · rw [hd, cacheGet_cachePopulate]
    by_cases hkey : p = req.path ∧ v = req.version ∧ n = req.serviceName
    · obtain ⟨h1, h2, h3⟩ := hkey
      subst h1 h2 h3
      rw [hc] at h
      cases h
    · rw [if_neg hkey]; exact h

theorem run_requests_keep (env : Env) (later : List (Request × Nat)) (st : State)
    (p v n : String) (cd : CacheData) (h : cacheGet st.data p v n = some cd) :
    (run env st (later.map fun rd => Event.request rd.1 rd.2)).cfg = st.cfg ∧
    cacheGet (run env st (later.map fun rd => Event.request rd.1 rd.2)).data p v n = some cd := by
  induction later generalizing st with
  | nil => exact ⟨rfl, h⟩
  | cons rd rest ih =>
    have h1 := ih (step env st (Event.request rd.1 rd.2))
      (handler_keeps_entry env.proxyDo st.cfg st.data rd.1 rd.2 p v n cd h)
    simpa [run, step] using h1

/-- C10 fails on the code: in `staleSchedule` the reload has completed (table swapped to the
`http://h2` table, cache cleared) before the second request arrives, yet that request is
forwarded to `http://h1`, from a cache entry parsed from the earlier table; the entry stays,
and every later request to the key, after any uninterrupted requests during which the
stored keys read as before, is forwarded to `http://h1` as well. -/
theorem stale_entry_served_after_reload :
    staleFinal.reloading = false ∧
    lookupService staleFinal.cfg.Service "tenantA" "v1" "svc" =
      lookupService (tableWith ["http://h2"]).Service "tenantA" "v1" "svc" ∧
    (handler staleEnv.proxyDo staleFinal.cfg none reqA 0).1 =
      .ok (.proxied "http://h2/items/5" none) ∧
    (runSchedule staleEnv ⟨tableWith ["http://h1"], none, [], false⟩
        (staleSchedule.take 6)).threads.length = 1 ∧
    staleFinal.threads.map Thread.result =
      [some (.ok (.proxied "http://h1/items/5" none)),
       some (.ok (.proxied "http://h1/items/5" none))] ∧
    cacheGet staleFinal.data "tenantA" "v1" "svc" = some ⟨some ["http://h1"], "first"⟩ ∧
    ∀ (later : List (Request × Nat)) (draw : Nat),
      (handler staleEnv.proxyDo staleFinal.cfg
        (run staleEnv ⟨staleFinal.cfg, staleFinal.data⟩
          (later.map fun rd => Event.request rd.1 rd.2)).data reqA draw).1 =
        .ok (.proxied "http://h1/items/5" none) := by
  have hentry : cacheGet staleFinal.data "tenantA" "v1" "svc" =
      some ⟨some ["http://h1"], "first"⟩ := by decide
  refine ⟨by decide, rfl, by decide, by decide, by decide, hentry, ?_⟩
  intro later draw
  obtain ⟨_, hkeep⟩ := run_requests_keep staleEnv later ⟨staleFinal.cfg, staleFinal.data⟩
    "tenantA" "v1" "svc" _ hentry
  have ht : lookupService staleFinal.cfg.Service reqA.path reqA.version reqA.serviceName =
      some (.table [("method", .str "first"), ("servers", .array [.str "http://h2"])]) := rfl
  rw [handler_hit staleEnv.proxyDo staleFinal.cfg _ reqA draw _ _ ht hkeep]
  have hch : chooseServer "first" (some ["http://h1"]) draw = .ok "http://h1" := by
    rw [first_branch_eq]
    rfl
  rw [respond_some staleEnv.proxyDo "first" reqA.star "http://h1" ["http://h1"] draw hch]
  rfl

/-! ## The descriptor parse against the specification -/

/-- C2 fails on the code: on the `servers` list `["http://h1", 1]` the assertion `s.(string)`
panics where the specification keeps `"http://h1"`, and on a `method` that is not a
string `v.(string)` panics; a request to such a route ends in that panic, while for a route
that is not a mapping the checked assertion of the handler answers 404. -/
theorem parseServers_panics_on_non_string :
    parseServers [("method", .str "first"), ("servers", .array [.str "http://h1", .int 1])] =
      .error .typeAssertion ∧
    parseDescriptorSpec [("method", .str "first"),
        ("servers", .array [.str "http://h1", .int 1])] = ("first", ["http://h1"]) ∧
    parseServers [("method", .int 1), ("servers", .array [.str "http://h1"])] =
      .error .typeAssertion ∧
    parseDescriptorSpec [("method", .int 1), ("servers", .array [.str "http://h1"])] =
      ("", ["http://h1"]) ∧
    (handler staleEnv.proxyDo mixedServers none reqA 0).1 = .error .typeAssertion ∧
    (handler staleEnv.proxyDo stringEntry none reqA 0).1 =
      .ok (.status 404 "Invalid service configuration") := by
  decide

/-- On a descriptor whose `method`, if present, is a string and whose `servers`, if present,
is a list of strings, `parseServers` returns the pair of the specification: the value of
`method`, or `""` when it is absent, which `chooseServer` treats as "random"; and the
elements of `servers` in their order, a nil slice when there is none. -/
theorem parseServers_agrees_on_typed (m : List (String × Value))
    (hk : (m.map Prod.fst).Nodup) (hw : descriptorWellTyped m = true) :
    parseServers m = .ok ((parseDescriptorSpec m).1, Slice.ofList (parseDescriptorSpec m).2) ∧
    (∀ s, m.lookup "method" = some (.str s) → (parseDescriptorSpec m).1 = s) ∧
    (m.lookup "method" = none → (parseDescriptorSpec m).1 = "" ∧
      ∀ list draw, chooseServer "" list draw = chooseServer "random" list draw) ∧
    (∀ l : List String, m.lookup "servers" = some (.array (l.map Value.str)) →
      (parseDescriptorSpec m).2 = l) ∧
    (m.lookup "servers" = none → (parseDescriptorSpec m).2 = []) := by
  refine ⟨parseServers_eq_spec m hk hw, ?_, ?_, ?_, ?_⟩
  · intro s hs
    simp [parseDescriptorSpec, hs]
  · intro hn
    refine ⟨by simp [parseDescriptorSpec, hn], fun list draw => ?_⟩
    simp [chooseServer]
  · intro l hl
    have hfm : ∀ l1 : List String, (l1.map Value.str).filterMap Value.str? = l1 := by
      intro l1
      induction l1 with
      | nil => rfl
      | cons x rest ih => simp only [List.map_cons, List.filterMap_cons, Value.str?, ih]
    simp [parseDescriptorSpec, hl, hfm]
  · intro hn
    simp [parseDescriptorSpec, hn]

/-! ## Witnesses -/

theorem handler_forwards_witness :
    (handler staleEnv.proxyDo (tableWith ["http://h1", "http://h2"]) none reqA 1).1 =
      .ok (.proxied "http://h1/items/5" none) :=
  (handler_forwards staleEnv.proxyDo (tableWith ["http://h1", "http://h2"]) none reqA 1
    [("method", .str "first"), ("servers", .array [.str "http://h1", .str "http://h2"])]
    "first" ["http://h1", "http://h2"] rfl (by decide) rfl rfl (by decide) (Or.inl rfl)).2
    rfl rfl rfl

theorem handler_not_found_witness :
    ∃ body, handler staleEnv.proxyDo (tableWith ["http://h1"]) none
        ⟨"tenantX", "v1", "svc", "items/5"⟩ 0 = (.ok (.status 404 body), none) ∧
      (Response.status 404 body).forwardedTo = none ∧
      (Response.status 404 body).statusSet = some 404 :=
  handler_not_found staleEnv.proxyDo (tableWith ["http://h1"]) none
    ⟨"tenantX", "v1", "svc", "items/5"⟩ 0 (Or.inl rfl)

theorem handler_empty_pool_witness :
    (handler staleEnv.proxyDo (tableWith []) none reqA 0).1 =
      .ok (.status 500 "Internal server error") :=
  (handler_empty_pool staleEnv.proxyDo (tableWith []) none reqA 0
    [("method", .str "first"), ("servers", .array [])] rfl (by decide)
    (fun v hv => by
      have h : v = .str "first" := by
        have h1 : (some (Value.str "first") : Option Value) = some v := hv
        injection h1 with h1
        exact h1.symm
      rw [h]
      rfl)
    (Or.inr rfl) (Or.inl rfl)).1

theorem loadConfig_failure_witness :
    ∃ err, loadConfig (.ok "old") staleEnv.unmarshal (tableWith ["http://h1"]) =
      (some err, tableWith ["http://h1"]) :=
  loadConfig_failure (.ok "old") staleEnv.unmarshal (tableWith ["http://h1"])
    (Or.inr ⟨"old", "toml: bad document", rfl, rfl⟩)

end Gateway
